import Mathlib

/-! Verification development for the QuIP quantized-linear dispatcher
(`vllm/model_executor/layers/quantization/quip.py`) and the Qwen2-MoE
routing/combination engine (`vllm/model_executor/models/qwen2_moe.py`).
Tensors are embedded as lists of rational rows; device kernels and the
hadamard utilities (which live outside the two source files) are modelled
from their specified contracts. -/

namespace VllmGptq

/-- Dot product of two vectors (`zipWith (*)` followed by sum). -/
def dot (a b : List ℚ) : ℚ := (List.zipWith (· * ·) a b).sum

/-- Elementwise sum of two vectors. -/
def vadd (a b : List ℚ) : List ℚ := List.zipWith (· + ·) a b

/-- Scalar multiple of a vector. -/
def smul (c : ℚ) (v : List ℚ) : List ℚ := v.map (fun x => c * x)

/-- Zero-pad a vector on the right up to length `n`. -/
def padTo (n : ℕ) (v : List ℚ) : List ℚ := v ++ List.replicate (n - v.length) 0

/-- Matrix–vector product: each row of `M` dotted with `v`. -/
def matVec (M : List (List ℚ)) (v : List ℚ) : List ℚ := M.map (fun r => dot r v)

/-- Elementwise sum of two matrices (lists of rows). -/
def matAdd (A B : List (List ℚ)) : List (List ℚ) := List.zipWith vadd A B

/-- Modelled from the spec: `matmul_hadUt_cuda` (quip_utils, not under `src/`) —
the forward rotation applied to one row: zero-pad the row to `padded` entries,
then apply the orthogonal rotation matrix when one is configured, identity
otherwise (spec §4.1 step 3 and the §6 `rotate` contract).  The hadamard block
count `K` does not change the modelled input/output semantics. -/
def matmul_hadUt (had : Option (List (List ℚ))) (_K : ℕ) (padded : ℕ)
    (row : List ℚ) : List ℚ :=
  match had with
  | none => padTo padded row
  | some H => matVec H (padTo padded row)

/-- Modelled from the spec: `matmul_hadU_cuda` (quip_utils, not under `src/`) —
the backward rotation applied to one output row (spec §4.1 step 5). -/
def matmul_hadU (had : Option (List (List ℚ))) (_K : ℕ) (padded : ℕ)
    (row : List ℚ) : List ℚ :=
  match had with
  | none => padTo padded row
  | some H => matVec H (padTo padded row)

/-- One packed index decodes through the codebook (`grid_packed_abs`) to a
block of `pack = 8` weight values; the row is padded defensively so the
decoded block always has length 8. -/
def decodeEntry (grid : List (List ℚ)) (idx : ℕ) : List ℚ :=
  List.takeD 8 (grid.getD idx []) 0

/-- Modelled from the spec: the `ops.quip_decompress` kernel (vllm._C, not
under `src/`) — fully dequantize the packed indices through the codebook into
a dense matrix of shape (paddedOutputFeatures, paddedInputFeatures)
(spec §4.1 step 4, §6 `codebookDequantize`). -/
def quip_decompress (grid : List (List ℚ)) (Q : List (List ℕ)) : List (List ℚ) :=
  Q.map (fun row => (row.map (decodeEntry grid)).flatten)

/-- One output coordinate of the gemv kernel: gather-and-accumulate along one
row of packed indices, consuming the rotated input 8 lanes at a time, without
materializing the dense weight row. -/
def gemvRow (grid : List (List ℚ)) : List ℚ → List ℕ → ℚ
  | _, [] => 0
  | x, q :: qs => dot (x.take 8) (decodeEntry grid q) + gemvRow grid (x.drop 8) qs

/-- Modelled from the spec: the `ops.quip_gemv` kernel (vllm._C, not under
`src/`) — fused gather-and-accumulate over codebook vectors indexed by the
packed indices (spec §4.1 step 4, §6 `codebookGemv`). -/
def quip_gemv (grid : List (List ℚ)) (xs : List (List ℚ))
    (Q : List (List ℕ)) : List (List ℚ) :=
  xs.map (fun x => Q.map (fun qrow => gemvRow grid x qrow))

/-- The weight store built by `QuipLinearMethod.create_weights`: hadamard
block counts, padded feature counts, optional rotation matrices, packed
codebook indices `Qidxs`, and the two scale vectors `SU` (input) and `SV`
(output). -/
structure QuipWeights where
  Kleft : ℕ
  Kright : ℕ
  q_in_features : ℕ
  q_out_features : ℕ
  had_left : Option (List (List ℚ))
  had_right : Option (List (List ℚ))
  Qidxs : List (List ℕ)
  SU : List ℚ
  SV : List ℚ
deriving DecidableEq

/-- The two execution strategies of `QuipLinearMethod.apply_weights`. -/
inductive QuipStrategy
  | gemv
  | dense
deriving DecidableEq

/-- Embedding of `QuipLinearMethod.apply_weights` (quip.py lines 141-172).
The input is already flattened to a list of rows (`x.reshape(-1, d)`); the
final `.view` back to the original leading dims only regroups rows, so it is
the identity at this level of the embedding.  The strategy branch is the
source's `reshaped_x.size(0) < 32` test. -/
def applyWeights (grid : List (List ℚ)) (w : QuipWeights) (xs : List (List ℚ))
    (bias : Option (List ℚ)) : List (List ℚ) :=
  let out_dim := w.SV.length
  let xs1 := xs.map (fun r => List.zipWith (· * ·) r w.SU)
  let xs2 := xs1.map (fun r => matmul_hadUt w.had_left w.Kleft w.q_in_features r)
  let out :=
    if xs2.length < 32 then
      quip_gemv grid xs2 w.Qidxs
    else
      let W := quip_decompress grid w.Qidxs
      xs2.map (fun r => W.map (fun wr => dot r wr))
  let out2 := out.map (fun r => (matmul_hadU w.had_right w.Kright w.q_out_features r).take out_dim)
  let out3 := out2.map (fun r => List.zipWith (· * ·) r w.SV)
  match bias with
  | some b => out3.map (fun r => List.zipWith (· + ·) r b)
  | none => out3

/-- `apply_weights` with the strategy forced, bypassing the batch-size test;
used to state that the dispatcher's two strategies agree. -/
def applyWith (s : QuipStrategy) (grid : List (List ℚ)) (w : QuipWeights)
    (xs : List (List ℚ)) (bias : Option (List ℚ)) : List (List ℚ) :=
  let out_dim := w.SV.length
  let xs1 := xs.map (fun r => List.zipWith (· * ·) r w.SU)
  let xs2 := xs1.map (fun r => matmul_hadUt w.had_left w.Kleft w.q_in_features r)
  let out :=
    match s with
    | QuipStrategy.gemv => quip_gemv grid xs2 w.Qidxs
    | QuipStrategy.dense =>
      let W := quip_decompress grid w.Qidxs
      xs2.map (fun r => W.map (fun wr => dot r wr))
  let out2 := out.map (fun r => (matmul_hadU w.had_right w.Kright w.q_out_features r).take out_dim)
  let out3 := out2.map (fun r => List.zipWith (· * ·) r w.SV)
  match bias with
  | some b => out3.map (fun r => List.zipWith (· + ·) r b)
  | none => out3

/-- Splitting a dot product along an append in the right factor. -/
lemma dot_append (a b x : List ℚ) :
    dot x (a ++ b) = dot (x.take a.length) a + dot (x.drop a.length) b := by
  induction a generalizing x with
  | nil => simp [dot]
  | cons h t ih =>
    cases x with
    | nil => simp [dot]
    | cons xh xt =>
      simp only [List.cons_append, dot, List.zipWith_cons_cons, List.sum_cons,
        List.length_cons, List.take_succ_cons, List.drop_succ_cons]
      have hx := ih xt
      simp only [dot] at hx
      rw [hx]
      ring

/-- The gather-and-accumulate row computation equals the dot product with the
fully dequantized weight row. -/
lemma gemvRow_eq_dot (grid : List (List ℚ)) (qrow : List ℕ) (x : List ℚ) :
    gemvRow grid x qrow = dot x ((qrow.map (decodeEntry grid)).flatten) := by
  induction qrow generalizing x with
  | nil => simp [gemvRow, dot]
  | cons q qs ih =>
    have hlen : (decodeEntry grid q).length = 8 := List.takeD_length 8 _ 0
    simp only [gemvRow, List.map_cons, List.flatten_cons, dot_append, hlen, ih]

/-- The gemv kernel agrees row-for-row with dequantize-then-dense-matmul. -/
lemma quip_gemv_eq_dense (grid : List (List ℚ)) (xs : List (List ℚ))
    (Q : List (List ℕ)) :
    quip_gemv grid xs Q =
      xs.map (fun r => (quip_decompress grid Q).map (fun wr => dot r wr)) := by
  unfold quip_gemv quip_decompress
  refine List.map_congr_left (fun x _ => ?_)
  rw [List.map_map]
  exact List.map_congr_left (fun qrow _ => gemvRow_eq_dot grid qrow x)

/-- C1: `QuipLinearMethod.apply_weights` selects the gather-and-accumulate
(gemv) strategy exactly when the flattened row count `N` is below 32 and the
dequantize-then-dense-matmul strategy exactly when `N ≥ 32`, and on the same
rows the two strategies produce exactly equal outputs (so in particular they
agree within any rounding tolerance and the result does not depend on which
strategy was chosen). -/
theorem quip_strategy_dispatch_equiv (grid : List (List ℚ)) (w : QuipWeights)
    (xs : List (List ℚ)) (bias : Option (List ℚ)) :
    (xs.length < 32 →
      applyWeights grid w xs bias = applyWith QuipStrategy.gemv grid w xs bias) ∧
    (32 ≤ xs.length →
      applyWeights grid w xs bias = applyWith QuipStrategy.dense grid w xs bias) ∧
    applyWith QuipStrategy.gemv grid w xs bias =
      applyWith QuipStrategy.dense grid w xs bias := by
  have hequiv : applyWith QuipStrategy.gemv grid w xs bias =
      applyWith QuipStrategy.dense grid w xs bias := by
    simp only [applyWith, quip_gemv_eq_dense]
  refine ⟨fun hN => ?_, fun hN => ?_, hequiv⟩
  · simp only [applyWeights, applyWith, List.length_map]
    rw [if_pos hN]
  · simp only [applyWeights, applyWith, List.length_map, quip_gemv_eq_dense]
    rw [if_neg (Nat.not_lt.mpr hN)]

/-- A concrete weight store used by witnesses: codebook with two entries,
one packed index row, identity-free rotations, 8 input features. -/
def wGrid : List (List ℚ) := [[1, 2, 3, 4, 5, 6, 7, 8], [1, 0, -1, 0, 2, 0, -2, 0]]

/-- A concrete `QuipWeights` store for witnesses. -/
def wStore : QuipWeights :=
  { Kleft := 1
    Kright := 1
    q_in_features := 8
    q_out_features := 2
    had_left := none
    had_right := none
    Qidxs := [[0], [1]]
    SU := [1, 1, 1, 1, 1, 1, 1, 1]
    SV := [1, 2] }

/-- Witness for C1 at a concrete store and a 1-row input: the `N < 32`
hypothesis is discharged by evaluation and the strategies agree there. -/
theorem quip_strategy_dispatch_equiv_witness :
    applyWeights wGrid wStore [[1, 1, 1, 1, 1, 1, 1, 1]] none =
        applyWith QuipStrategy.gemv wGrid wStore [[1, 1, 1, 1, 1, 1, 1, 1]] none ∧
      applyWith QuipStrategy.gemv wGrid wStore [[1, 1, 1, 1, 1, 1, 1, 1]] none =
        applyWith QuipStrategy.dense wGrid wStore [[1, 1, 1, 1, 1, 1, 1, 1]] none :=
  ⟨(quip_strategy_dispatch_equiv wGrid wStore [[1, 1, 1, 1, 1, 1, 1, 1]] none).1
      (by decide),
    (quip_strategy_dispatch_equiv wGrid wStore [[1, 1, 1, 1, 1, 1, 1, 1]] none).2.2⟩

/-- The pipeline of `apply_weights` written following the spec's step order
(§4.1 steps 2-7): scale by `SU`, forward-rotate, quantized matmul (canonically
the dequantize-then-dense form), backward-rotate and truncate to `outputSize`,
scale by `SV`, add the bias when present, then reshape the rows back to the
original leading dims (the identity on the flattened row list). -/
def specApplyWeights (grid : List (List ℚ)) (w : QuipWeights) (xs : List (List ℚ))
    (bias : Option (List ℚ)) : List (List ℚ) :=
  let x1 := xs.map (fun r => List.zipWith (· * ·) r w.SU)
  let x2 := x1.map (fun r => matmul_hadUt w.had_left w.Kleft w.q_in_features r)
  let W := quip_decompress grid w.Qidxs
  let y := x2.map (fun r => W.map (fun wr => dot r wr))
  let y1 := y.map (fun r => (matmul_hadU w.had_right w.Kright w.q_out_features r).take w.SV.length)
  let y2 := y1.map (fun r => List.zipWith (· * ·) r w.SV)
  let y3 :=
    match bias with
    | some b => y2.map (fun r => List.zipWith (· + ·) r b)
    | none => y2
  y3

/-- Well-formedness of a weight store, from the spec's data-model invariants:
the declared output size does not exceed the padded output feature count, and
the backward rotation matrix (when configured) has one row per padded output
feature. -/
def QuipWF (w : QuipWeights) : Prop :=
  w.SV.length ≤ w.q_out_features ∧ ∀ H ∈ w.had_right, H.length = w.q_out_features

/-- Truncating the back-rotated row to `outputSize` always yields exactly
`outputSize` entries, for a well-formed store. -/
lemma length_take_backrotate (w : QuipWeights) (hwf : QuipWF w) (r : List ℚ) :
    ((matmul_hadU w.had_right w.Kright w.q_out_features r).take w.SV.length).length
      = w.SV.length := by
  rw [List.length_take]
  rcases hH : w.had_right with _ | H
  · have h1 := hwf.1
    simp only [matmul_hadU, padTo, List.length_append, List.length_replicate]
    omega
  · have hlen := hwf.2 H (by rw [hH]; rfl)
    have h1 := hwf.1
    simp only [matmul_hadU, matVec, List.length_map]
    omega

/-- C2: `apply_weights` returns exactly the value described by the spec's
pipeline (scale by `SU`, forward rotation, quantized matmul, backward rotation
and truncation to `outputSize`, scale by `SV`, bias when present, reshape), and
every output row has length `outputSize = SV.length`. -/
theorem quip_pipeline_spec (grid : List (List ℚ)) (w : QuipWeights)
    (xs : List (List ℚ)) (bias : Option (List ℚ)) (hwf : QuipWF w)
    (hbias : ∀ b ∈ bias, b.length = w.SV.length) :
    applyWeights grid w xs bias = specApplyWeights grid w xs bias ∧
      ∀ r ∈ applyWeights grid w xs bias, r.length = w.SV.length := by
  constructor
  · simp only [applyWeights, specApplyWeights, quip_gemv_eq_dense, ite_self]
  · intro r hr
    simp only [applyWeights] at hr
    rcases bias with _ | b
    · simp only [List.mem_map] at hr
      obtain ⟨r2, ⟨r1, _, rfl⟩, rfl⟩ := hr
      rw [List.length_zipWith, length_take_backrotate w hwf]
      omega
    · have hb := hbias b (by rfl)
      simp only [List.mem_map] at hr
      obtain ⟨r3, ⟨r2, ⟨r1, _, rfl⟩, rfl⟩, rfl⟩ := hr
      rw [List.length_zipWith, List.length_zipWith, length_take_backrotate w hwf, hb]
      omega

/-- Witness for C2 at the concrete store, a 1-row input and a bias: both
hypotheses are discharged by evaluation. -/
theorem quip_pipeline_spec_witness :
    applyWeights wGrid wStore [[1, 1, 1, 1, 1, 1, 1, 1]] (some [5, 7]) =
      specApplyWeights wGrid wStore [[1, 1, 1, 1, 1, 1, 1, 1]] (some [5, 7]) :=
  (quip_pipeline_spec wGrid wStore [[1, 1, 1, 1, 1, 1, 1, 1]] (some [5, 7])
      (by constructor <;> simp [wStore]) (by simp [wStore])).1

/-- Error raised by `QuipLinearMethod.create_weights` when sharding is
requested (the spec's ConfigurationError taxonomy). -/
inductive QuipCreateError
  | tensorParallelUnsupported
deriving DecidableEq

/-- Whether an `Except` computation failed. -/
def isError {ε α : Type} (e : Except ε α) : Bool :=
  match e with
  | Except.error _ => true
  | Except.ok _ => false

/-- Embedding of `QuipLinearMethod.create_weights` (quip.py lines 84-139).
`hadK` abstracts `get_hadK` (quip_utils, not under `src/`): it returns the
optional rotation matrix, the hadamard block count and the padded feature
count for a given size.  The allocated parameters are uninitialized in the
source (`torch.empty`), so the model fills them with zeros; `Qidxs` is
allocated with shape `(q_out_features, q_in_features // pack)` with
`pack = 8`. -/
def createWeights (hadK : ℕ → Option (List (List ℚ)) × ℕ × ℕ)
    (input_size_per_partition output_size_per_partition input_size output_size : ℕ) :
    Except QuipCreateError QuipWeights :=
  if input_size ≠ input_size_per_partition ∨ output_size ≠ output_size_per_partition then
    Except.error QuipCreateError.tensorParallelUnsupported
  else
    let pL := hadK input_size
    let pR := hadK output_size
    Except.ok
      { Kleft := pL.2.1
        Kright := pR.2.1
        q_in_features := pL.2.2
        q_out_features := pR.2.2
        had_left := pL.1
        had_right := pR.1
        Qidxs := List.replicate pR.2.2 (List.replicate (pL.2.2 / 8) 0)
        SU := List.replicate input_size 0
        SV := List.replicate output_size 0 }

/-- C9: `create_weights` fails with the ConfigurationError (tensor-parallel
unsupported) exactly when the per-partition input size differs from the full
input size or the per-partition output size differs from the full output
size; with equal sizes no error is raised. -/
theorem create_weights_sharding_error (hadK : ℕ → Option (List (List ℚ)) × ℕ × ℕ)
    (inPart outPart inSize outSize : ℕ) :
    isError (createWeights hadK inPart outPart inSize outSize) = true ↔
      (inSize ≠ inPart ∨ outSize ≠ outPart) := by
  rw [createWeights]
  split_ifs with h
  · simpa [isError] using h
  · simpa [isError] using h

/-- Error raised when a serialized tensor's geometry disagrees with its
destination (the spec's ShapeError taxonomy). -/
inductive ShapeError
  | packedGeometryMismatch
deriving DecidableEq

/-- Modelled from the spec: the per-destination ParameterLoader contract (§6)
together with the §7 error taxonomy — the load-time shape validation lives in
the weight-loading utilities, not under `src/`.  Loading the serialized
packed-index tensor of geometry `(rows, cols)` into the destination allocated
with geometry `(allocRows, allocCols)` fails with ShapeError exactly on a
geometry mismatch. -/
def loadPackedIndices (allocRows allocCols rows cols : ℕ) : Except ShapeError Unit :=
  if rows = allocRows ∧ cols = allocCols then Except.ok ()
  else Except.error ShapeError.packedGeometryMismatch

/-- C5: for a store allocated by `create_weights` (unsharded sizes), loading
a packed-index tensor fails with ShapeError exactly when
`cols * pack ≠ paddedInputFeatures` or `rows ≠ paddedOutputFeatures`; with
consistent geometry no such error is raised. -/
theorem quip_packed_geometry_check (hadK : ℕ → Option (List (List ℚ)) × ℕ × ℕ)
    (inSize outSize rows cols : ℕ) (w : QuipWeights)
    (hok : createWeights hadK inSize outSize inSize outSize = Except.ok w)
    (h8 : 8 ∣ w.q_in_features) (hpos : 0 < w.q_out_features) :
    isError (loadPackedIndices w.Qidxs.length ((w.Qidxs.headD []).length) rows cols) = true ↔
      (cols * 8 ≠ w.q_in_features ∨ rows ≠ w.q_out_features) := by
  rw [createWeights, if_neg (by simp)] at hok
  have hw := Except.ok.inj hok
  subst hw
  rcases hq : (hadK outSize).2.2 with _ | m
  · exact absurd hpos (by simp [hq])
  · simp only [hq, List.replicate_succ, List.headD_cons, List.length_cons,
      List.length_replicate, loadPackedIndices, isError]
    have h8' : (8 : ℕ) ∣ (hadK inSize).2.2 := h8
    split_ifs with h
    · simp only [Bool.false_eq_true, false_iff]
      push_neg
      omega
    · simp only [true_iff]
      rcases Nat.lt_or_ge cols ((hadK inSize).2.2 / 8) with hlt | hge
      · left
        omega
      · by_cases hc : cols = (hadK inSize).2.2 / 8
        · right
          omega
        · left
          omega

/-- A trivial `get_hadK` model used by witnesses: no rotation, block count 1,
no padding. -/
def hadKId : ℕ → Option (List (List ℚ)) × ℕ × ℕ := fun n => (none, 1, n)

/-- The store allocated by `createWeights hadKId 16 2 16 2`, used by the C5
witness. -/
def wAlloc : QuipWeights :=
  { Kleft := 1
    Kright := 1
    q_in_features := 16
    q_out_features := 2
    had_left := none
    had_right := none
    Qidxs := List.replicate 2 (List.replicate 2 0)
    SU := List.replicate 16 0
    SV := List.replicate 2 0 }

/-- Witness for C5: a concrete allocation (16 padded input features, 2 padded
output features) and an incoming tensor with 3 rows, which is a geometry
mismatch and therefore an error. -/
theorem quip_packed_geometry_check_witness :
    isError (loadPackedIndices wAlloc.Qidxs.length ((wAlloc.Qidxs.headD []).length) 3 2)
        = true ↔
      (2 * 8 ≠ wAlloc.q_in_features ∨ 3 ≠ wAlloc.q_out_features) :=
  quip_packed_geometry_check hadKId 16 2 3 2 wAlloc (by rfl) (by decide) (by decide)

/-- The per-rank section sizes of `np.array_split(range(n), k)`: the first
`n % k` sections receive `n / k + 1` elements, the remaining `k - n % k`
sections receive `n / k` (numpy's documented near-equal split). -/
def sectionSizes (n k : ℕ) : List ℕ :=
  List.replicate (n % k) (n / k + 1) ++ List.replicate (k - n % k) (n / k)

/-- Contiguous runs of consecutive naturals starting at `start`, one run per
entry of `sizes`. -/
def splitChunks (start : ℕ) : List ℕ → List (List ℕ)
  | [] => []
  | s :: rest => (List.range s).map (fun j => start + j) :: splitChunks (start + s) rest

/-- Embedding of `np.array_split(range(n_routed_experts), tp_size)`
(qwen2_moe.py lines 176-177), following numpy's documented semantics. -/
def arraySplit (n k : ℕ) : List (List ℕ) := splitChunks 0 (sectionSizes n k)

lemma splitChunks_length (sizes : List ℕ) (start : ℕ) :
    (splitChunks start sizes).length = sizes.length := by
  induction sizes generalizing start with
  | nil => rfl
  | cons s rest ih => simp [splitChunks, ih]

lemma splitChunks_flatten (sizes : List ℕ) (start : ℕ) :
    (splitChunks start sizes).flatten = (List.range sizes.sum).map (fun j => start + j) := by
  induction sizes generalizing start with
  | nil => simp [splitChunks]
  | cons s rest ih =>
    simp only [splitChunks, List.flatten_cons, ih, List.sum_cons, List.range_add,
      List.map_append, List.map_map]
    congr 1
    refine List.map_congr_left (fun j _ => ?_)
    simp only [Function.comp_apply]
    omega

lemma sectionSizes_sum (n k : ℕ) (hk : 0 < k) : (sectionSizes n k).sum = n := by
  have hm : n % k < k := Nat.mod_lt _ hk
  have hd : n % k + k * (n / k) = n := Nat.mod_add_div n k
  simp only [sectionSizes, List.sum_append, List.sum_replicate, smul_eq_mul]
  have hk' : (k - n % k) * (n / k) = k * (n / k) - (n % k) * (n / k) :=
    Nat.sub_mul k (n % k) (n / k)
  nlinarith [Nat.sub_add_cancel (le_of_lt hm)]

lemma splitChunks_map_length (sizes : List ℕ) (start : ℕ) :
    (splitChunks start sizes).map List.length = sizes := by
  induction sizes generalizing start with
  | nil => rfl
  | cons s rest ih => simp [splitChunks, ih]

lemma splitChunks_getD_length (sizes : List ℕ) (start i : ℕ) (hi : i < sizes.length) :
    ((splitChunks start sizes).getD i []).length = sizes.getD i 0 := by
  induction sizes generalizing start i with
  | nil => simp at hi
  | cons s rest ih =>
    cases i with
    | zero => simp [splitChunks]
    | succ j =>
      simp only [splitChunks, List.getD_cons_succ]
      exact ih _ j (by simpa using hi)

lemma getD_replicate_of_lt {α : Type} (m : ℕ) (a d : α) (i : ℕ) (hi : i < m) :
    (List.replicate m a).getD i d = a := by
  induction m generalizing i with
  | zero => omega
  | succ m ih =>
    cases i with
    | zero => rfl
    | succ j =>
      simp only [List.replicate_succ, List.getD_cons_succ]
      exact ih j (by omega)

lemma sectionSizes_getD (n k i : ℕ) (hk : 0 < k) (hi : i < k) :
    (sectionSizes n k).getD i 0 = if i < n % k then n / k + 1 else n / k := by
  have hm : n % k < k := Nat.mod_lt _ hk
  by_cases h : i < n % k
  · rw [if_pos h, sectionSizes, List.getD_append _ _ _ _ (by simpa using h)]
    exact getD_replicate_of_lt _ _ _ _ (by simpa using h)
  · rw [if_neg h, sectionSizes,
      List.getD_append_right _ _ _ _ (by simpa using Nat.le_of_not_lt h)]
    exact getD_replicate_of_lt _ _ _ _ (by simp; omega)

lemma arraySplit_flatten (n k : ℕ) (hk : 0 < k) :
    (arraySplit n k).flatten = List.range n := by
  rw [arraySplit, splitChunks_flatten, sectionSizes_sum n k hk]
  simp

lemma arraySplit_length (n k : ℕ) (hk : 0 < k) : (arraySplit n k).length = k := by
  have hm : n % k < k := Nat.mod_lt _ hk
  rw [arraySplit, splitChunks_length]
  simp only [sectionSizes, List.length_append, List.length_replicate]
  omega

lemma arraySplit_getD_length (n k i : ℕ) (hk : 0 < k) (hi : i < k) :
    ((arraySplit n k).getD i []).length = if i < n % k then n / k + 1 else n / k := by
  have hlen : i < (sectionSizes n k).length := by
    have hm : n % k < k := Nat.mod_lt _ hk
    simp only [sectionSizes, List.length_append, List.length_replicate]
    omega
  rw [arraySplit, splitChunks_getD_length _ _ _ hlen, sectionSizes_getD n k i hk hi]

lemma arraySplit_getD_ne_nil (n k i : ℕ) (hi : i < k) (hkn : k ≤ n) :
    (arraySplit n k).getD i [] ≠ [] := by
  have hk : 0 < k := by omega
  have hdiv : 1 ≤ n / k := (Nat.one_le_div_iff hk).mpr hkn
  have hlen := arraySplit_getD_length n k i hk hi
  intro hcon
  rw [hcon] at hlen
  simp only [List.length_nil] at hlen
  split_ifs at hlen
  all_goals omega

/-- C6: for `nExperts ≥ nRanks ≥ 1` the expert partition is exhaustive and
in order (its concatenation is exactly `0..nExperts-1`, so every expert is
assigned to exactly one rank), the shards are pairwise disjoint and all
non-empty, there is one shard per rank, and the split is balanced: the first
`nExperts % nRanks` ranks receive `nExperts / nRanks + 1` experts and the
remaining ranks `nExperts / nRanks`, the former being `⌈nExperts/nRanks⌉`
whenever the division is not exact. -/
theorem expert_partition_balanced (n k : ℕ) (hk : 1 ≤ k) (hkn : k ≤ n) :
    (arraySplit n k).flatten = List.range n ∧
      List.Pairwise List.Disjoint (arraySplit n k) ∧
      (∀ c ∈ arraySplit n k, c ≠ []) ∧
      (arraySplit n k).length = k ∧
      (∀ i, i < k → ((arraySplit n k).getD i []).length =
        if i < n % k then n / k + 1 else n / k) ∧
      (n % k ≠ 0 → n / k + 1 = (n + k - 1) / k) := by
  have hk0 : 0 < k := hk
  have hflat := arraySplit_flatten n k hk0
  refine ⟨hflat, ?_, ?_, arraySplit_length n k hk0,
    fun i hi => arraySplit_getD_length n k i hk0 hi, ?_⟩
  · have hnodup : (arraySplit n k).flatten.Nodup := by
      rw [hflat]; exact List.nodup_range n
    exact (List.nodup_flatten.mp hnodup).2
  · intro c hc
    have hmem : c.length ∈ (sectionSizes n k) := by
      rw [← splitChunks_map_length (sectionSizes n k) 0]
      exact List.mem_map_of_mem List.length hc
    have hdiv : 1 ≤ n / k := (Nat.one_le_div_iff hk0).mpr hkn
    intro hcon
    rw [hcon] at hmem
    simp only [sectionSizes, List.mem_append, List.mem_replicate] at hmem
    rcases hmem with ⟨_, h⟩ | ⟨_, h⟩ <;> simp only [List.length_nil] at h <;> omega
  · intro hmod
    have hm : n % k < k := Nat.mod_lt _ hk0
    have hd : n % k + k * (n / k) = n := Nat.mod_add_div n k
    have hmul : k * (n / k + 1) = k * (n / k) + k := by ring
    have heq : n + k - 1 = k * (n / k + 1) + (n % k - 1) := by rw [hmul]; omega
    have hzero : (n % k - 1) / k = 0 := Nat.div_eq_of_lt (by omega)
    rw [heq, Nat.mul_add_div hk0, hzero]

/-- Witness for C6 at the spec's example `nExperts = 8`, `nRanks = 3`:
hypotheses are discharged by evaluation; the shards cover `0..7` and there
are three of them. -/
theorem expert_partition_balanced_witness :
    (arraySplit 8 3).flatten = List.range 8 ∧ (arraySplit 8 3).length = 3 :=
  ⟨(expert_partition_balanced 8 3 (by decide) (by decide)).1,
    (expert_partition_balanced 8 3 (by decide) (by decide)).2.2.2.1⟩

/-- Errors raised by `Qwen2MoeSparseMoeBlock.__init__` (the spec's
ConfigurationError taxonomy): tensor-parallel size exceeding the expert
count, and an empty local expert shard. -/
inductive MoeInitError
  | tpGreaterThanExperts
  | emptyExpertShard
deriving DecidableEq

/-- Embedding of the validation in `Qwen2MoeSparseMoeBlock.__init__`
(qwen2_moe.py lines 145-188).  `nonFusedQuant` is true when a linear method
is configured that is not `UnquantizedLinearMethod` and whose quant config
does not support fused MoE; only on that path is the local expert shard
`np.array_split(range(n_routed_experts), tp_size)[rank]` computed and
required to be non-empty.  On success the non-fused path returns the local
shard, the fused path returns `none`. -/
def moeBlockInit (nExperts tpSize rank : ℕ) (nonFusedQuant : Bool) :
    Except MoeInitError (Option (List ℕ)) :=
  if nExperts < tpSize then Except.error MoeInitError.tpGreaterThanExperts
  else if nonFusedQuant then
    let shard := (arraySplit nExperts tpSize).getD rank []
    if shard = [] then Except.error MoeInitError.emptyExpertShard
    else Except.ok (some shard)
  else Except.ok none

/-- C7: MoE-block construction fails with a ConfigurationError exactly when
the rank count exceeds the expert count or when the local rank's computed
shard is empty; with `tpSize ≤ nExperts` and a non-empty local shard neither
error is raised (for a valid local rank the two conditions in fact
coincide, the shard being always non-empty once the rank-count check
passes). -/
theorem moe_init_error_iff (nExperts tpSize rank : ℕ) (b : Bool)
    (hr : rank < tpSize) :
    isError (moeBlockInit nExperts tpSize rank b) = true ↔
      (nExperts < tpSize ∨ (arraySplit nExperts tpSize).getD rank [] = []) := by
  rw [moeBlockInit]
  split_ifs with h1 h2
  · simp [isError, h1]
  · by_cases h3 : (arraySplit nExperts tpSize)[rank]?.getD [] = []
    · simp [isError, h1, h3]
    · simp [isError, h1, h3]
  · simp only [isError, Bool.false_eq_true, false_iff]
    push_neg
    refine ⟨Nat.not_lt.mp h1, ?_⟩
    simpa using arraySplit_getD_ne_nil nExperts tpSize rank hr (by omega)

/-- Witness for C7: 9 ranks and 8 experts with local rank 0 — the rank-count
check fires and construction errors. -/
theorem moe_init_error_iff_witness :
    isError (moeBlockInit 8 9 0 true) = true ↔
      (8 < 9 ∨ (arraySplit 8 9).getD 0 [] = []) :=
  moe_init_error_iff 8 9 0 true (by decide)

/-- C10: once the rank-count check passes (`tpSize ≤ nExperts`), the
near-equal split assigns at least one expert to every rank, so the
empty-local-shard error branch of the constructor is unreachable. -/
theorem empty_shard_unreachable (nExperts tpSize rank : ℕ) (b : Bool)
    (hr : rank < tpSize) (hkn : tpSize ≤ nExperts) :
    (arraySplit nExperts tpSize).getD rank [] ≠ [] ∧
      moeBlockInit nExperts tpSize rank b ≠ Except.error MoeInitError.emptyExpertShard := by
  have hne := arraySplit_getD_ne_nil nExperts tpSize rank hr hkn
  have hne' : (arraySplit nExperts tpSize)[rank]?.getD [] ≠ [] := by simpa using hne
  refine ⟨hne, ?_⟩
  rw [moeBlockInit]
  split_ifs with h1 h2
  · simp
  · simp [hne']
  · simp

/-- Witness for C10 at `nExperts = 8`, `tpSize = 3`, `rank = 2`: the last
(smallest) shard is still non-empty and construction does not hit the
empty-shard error. -/
theorem empty_shard_unreachable_witness :
    moeBlockInit 8 3 2 true ≠ Except.error MoeInitError.emptyExpertShard :=
  (empty_shard_unreachable 8 3 2 true (by decide) (by decide)).2

/-- Per-token weight of one expert: the routing weights summed over the
top-k slots whose selected expert id equals `e` — the embedding of
`(routing_weights * (selected_experts == expert_idx)).sum(dim=-1)`
(qwen2_moe.py lines 224-226).  Summing over matching slots keeps the value
correct even under an accidental duplicate selection. -/
def expertWeight (sel : List ℕ) (w : List ℚ) (e : ℕ) : ℚ :=
  (List.zipWith (fun s wi => if s = e then wi else 0) sel w).sum

/-- One expert's weighted contribution over the whole batch: the embedding of
`expert_layer(hidden_states).mul_(expert_weights)` (qwen2_moe.py lines
228-229), token by token.  `f e` is expert `e`'s dense feed-forward map. -/
def expertContrib (f : ℕ → List ℚ → List ℚ) (e : ℕ) (toks : List (List ℚ))
    (sel : List (List ℕ)) (w : List (List ℚ)) : List (List ℚ) :=
  (toks.zip (sel.zip w)).map (fun p => smul (expertWeight p.2.1 p.2.2 e) (f e p.1))

/-- Embedding of the dense/local accumulation loop of
`Qwen2MoeSparseMoeBlock.forward` (qwen2_moe.py lines 221-233): starting from
`None`, each owned expert's weighted contribution is added in; the result is
`none` exactly when the rank owns no experts (which the constructor forbids). -/
def moeLocalCombine (owned : List ℕ) (f : ℕ → List ℚ → List ℚ)
    (toks : List (List ℚ)) (sel : List (List ℕ)) (w : List (List ℚ)) :
    Option (List (List ℚ)) :=
  owned.foldl
    (fun acc e =>
      match acc with
      | none => some (expertContrib f e toks sel w)
      | some m => some (matAdd m (expertContrib f e toks sel w)))
    none

/-- The claim's per-token formula: the sum, over the experts owned by this
rank, of (sum of the routing weights at the token's top-k slots selecting
that expert) times that expert's feed-forward output on the token. -/
def specTokenOut (owned : List ℕ) (f : ℕ → List ℚ → List ℚ) (tok : List ℚ)
    (sel : List ℕ) (w : List ℚ) (d : ℕ) : List ℚ :=
  owned.foldl (fun acc e => vadd acc (smul (expertWeight sel w e) (f e tok)))
    (List.replicate d 0)

lemma vadd_replicate_zero (v : List ℚ) : vadd (List.replicate v.length 0) v = v := by
  induction v with
  | nil => rfl
  | cons h t ih =>
    simp only [List.length_cons, List.replicate_succ, vadd, List.zipWith_cons_cons, zero_add]
    simp only [vadd] at ih
    rw [ih]

lemma vadd_replicate_zero_of_length (v : List ℚ) (d : ℕ) (hv : v.length = d) :
    vadd (List.replicate d 0) v = v := by
  rw [← hv]; exact vadd_replicate_zero v

lemma smul_zero_vec (v : List ℚ) : smul 0 v = List.replicate v.length 0 := by
  induction v with
  | nil => rfl
  | cons h t ih =>
    simp only [smul, List.map_cons, zero_mul, List.length_cons, List.replicate_succ]
    simp only [smul, zero_mul] at ih
    rw [ih]

lemma moeFold_some (f : ℕ → List ℚ → List ℚ) (toks : List (List ℚ))
    (sel : List (List ℕ)) (w : List (List ℚ)) (l : List ℕ) (m : List (List ℚ)) :
    (l.foldl
        (fun acc e =>
          match acc with
          | none => some (expertContrib f e toks sel w)
          | some m' => some (matAdd m' (expertContrib f e toks sel w)))
        (some m)) =
      some (l.foldl (fun m' e => matAdd m' (expertContrib f e toks sel w)) m) := by
  induction l generalizing m with
  | nil => rfl
  | cons e rest ih => exact ih (matAdd m (expertContrib f e toks sel w))

lemma matAdd_map_map {α : Type} (zs : List α) (g h : α → List ℚ) :
    matAdd (zs.map g) (zs.map h) = zs.map (fun p => vadd (g p) (h p)) := by
  induction zs with
  | nil => rfl
  | cons z rest ih =>
    simp only [List.map_cons, matAdd, List.zipWith_cons_cons]
    simp only [matAdd] at ih
    rw [ih]

lemma specTokenOut_zero (f : ℕ → List ℚ → List ℚ) (tok : List ℚ) (sel' : List ℕ)
    (w' : List ℚ) (d : ℕ) :
    ∀ owned : List ℕ, (∀ e ∈ owned, (f e tok).length = d) →
      (∀ e ∈ owned, expertWeight sel' w' e = 0) →
      specTokenOut owned f tok sel' w' d = List.replicate d 0 := by
  intro owned
  induction owned with
  | nil => intro _ _; rfl
  | cons e rest ih =>
    intro hlen hzero
    rw [specTokenOut, List.foldl_cons, hzero e (by simp), smul_zero_vec,
      hlen e (by simp), vadd_replicate_zero_of_length _ d (by simp)]
    have hrec := ih (fun e' he' => hlen e' (by simp [he']))
      (fun e' he' => hzero e' (by simp [he']))
    rw [specTokenOut] at hrec
    exact hrec

lemma moeFold_rows {α : Type} (cRow : ℕ → α → List ℚ) (zs : List α)
    (l : List ℕ) (g : α → List ℚ) :
    l.foldl (fun M e => matAdd M (zs.map (cRow e))) (zs.map g) =
      zs.map (fun p => l.foldl (fun r e => vadd r (cRow e p)) (g p)) := by
  induction l generalizing g with
  | nil => rfl
  | cons e rest ih =>
    simp only [List.foldl_cons, matAdd_map_map]
    exact ih (fun p => vadd (g p) (cRow e p))

/-- C3: in dense/local mode the combiner's output for each token is the sum
over the experts owned by this rank of (sum of routing weights at the slots
selecting that expert) times the expert's output; a token none of whose
selected experts is owned contributes exactly zero locally, and a duplicate
selection of one expert in two slots contributes the sum of both slot
weights applied once. -/
theorem moe_local_combine_correct (owned : List ℕ) (f : ℕ → List ℚ → List ℚ)
    (toks : List (List ℚ)) (sel : List (List ℕ)) (w : List (List ℚ)) (d : ℕ)
    (howned : owned ≠ [])
    (hd : ∀ e ∈ owned, ∀ t ∈ toks, (f e t).length = d) :
    moeLocalCombine owned f toks sel w =
        some ((toks.zip (sel.zip w)).map
          (fun p => specTokenOut owned f p.1 p.2.1 p.2.2 d)) ∧
      (∀ tok ∈ toks, ∀ sel' w', (∀ e ∈ owned, expertWeight sel' w' e = 0) →
        specTokenOut owned f tok sel' w' d = List.replicate d 0) ∧
      (∀ e : ℕ, ∀ a b : ℚ, expertWeight [e, e] [a, b] e = a + b) := by
  refine ⟨?_, ?_, ?_⟩
  · obtain ⟨e0, rest, rfl⟩ : ∃ e0 rest, owned = e0 :: rest := by
      cases owned with
      | nil => exact absurd rfl howned
      | cons a l => exact ⟨a, l, rfl⟩
    rw [moeLocalCombine, List.foldl_cons, moeFold_some]
    show some _ = some _
    congr 1
    simp only [expertContrib]
    rw [moeFold_rows
        (fun (e : ℕ) (p : List ℚ × List ℕ × List ℚ) =>
          smul (expertWeight p.2.1 p.2.2 e) (f e p.1))
        (toks.zip (sel.zip w)) rest
        (fun p => smul (expertWeight p.2.1 p.2.2 e0) (f e0 p.1))]
    refine List.map_congr_left (fun p hp => ?_)
    have hp1 : p.1 ∈ toks := (List.of_mem_zip hp).1
    rw [specTokenOut, List.foldl_cons,
      vadd_replicate_zero_of_length _ d (by
        simp only [smul, List.length_map]
        exact hd e0 (by simp) p.1 hp1)]
  · intro tok htok sel' w' hzero
    exact specTokenOut_zero f tok sel' w' d owned
      (fun e he => hd e he tok htok) hzero
  · intro e a b
    simp [expertWeight]

/-- A concrete expert feed-forward map (the identity on the hidden state)
used by the C3 witness. -/
def expertId : ℕ → List ℚ → List ℚ := fun _ t => t

/-- Witness for C3: one owned expert, one token of width 2, top-2 routing
with slots selecting experts 1 and 0; both hypotheses are discharged by
evaluation. -/
theorem moe_local_combine_correct_witness :
    moeLocalCombine [1] expertId [[1, 2]] [[1, 0]] [[(1 : ℚ)/2, (1 : ℚ)/4]] =
      some ((([[1, 2]] : List (List ℚ)).zip
          (([[1, 0]] : List (List ℕ)).zip [[(1 : ℚ)/2, (1 : ℚ)/4]])).map
        (fun p => specTokenOut [1] expertId p.1 p.2.1 p.2.2 2)) :=
  (moe_local_combine_correct [1] expertId [[1, 2]] [[1, 0]]
      [[(1 : ℚ)/2, (1 : ℚ)/4]] 2 (by decide) (by decide)).1

/-- Python's substring test `pat in s`, on names modelled as character
lists. -/
def occursIn : List Char → List Char → Bool
  | pat, [] => pat.isEmpty
  | pat, c :: rest => pat.isPrefixOf (c :: rest) || occursIn pat rest

/-- Python's `str.replace` (all non-overlapping occurrences, left to right),
driven by fuel; each replacement consumes at least one character of the
subject, so `s.length` fuel suffices for the non-empty patterns used here. -/
def replaceFuel : ℕ → List Char → List Char → List Char → List Char
  | 0, s, _, _ => s
  | fuel + 1, s, pat, sub =>
    match s with
    | [] => []
    | c :: rest =>
      if pat.isPrefixOf (c :: rest) then
        sub ++ replaceFuel fuel ((c :: rest).drop pat.length) pat sub
      else
        c :: replaceFuel fuel rest pat sub

/-- Python's `str.replace` on character lists. -/
def replaceAll (s pat sub : List Char) : List Char := replaceFuel s.length s pat sub

/-- Python's `str.endswith`. -/
def endsWith (s suf : List Char) : Bool := List.isSuffixOf suf s

/-- A shard tag: the stacked table uses the strings q/k/v and the integers
0/1 (source line 486 comment `(param_name, shard_name, shard_id)`). -/
abbrev ShardId := Sum (List Char) ℕ

/-- `stacked_params_mapping` of `Qwen2MoeForCausalLM.load_weights`
(qwen2_moe.py lines 485-494), in source order. -/
def stackedParamsMapping : List (List Char × List Char × ShardId) :=
  [("qkv_proj".data, "q_proj".data, Sum.inl "q".data),
   ("qkv_proj".data, "k_proj".data, Sum.inl "k".data),
   ("qkv_proj".data, "v_proj".data, Sum.inl "v".data),
   ("mlp.gate_up_proj".data, "mlp.gate_proj".data, Sum.inr 0),
   ("mlp.gate_up_proj".data, "mlp.up_proj".data, Sum.inr 1),
   ("shared_expert.gate_up_proj".data, "shared_expert.gate_proj".data, Sum.inr 0),
   ("shared_expert.gate_up_proj".data, "shared_expert.up_proj".data, Sum.inr 1)]

/-- `expert_params_mapping` of `Qwen2MoeForCausalLM.load_weights`
(qwen2_moe.py lines 496-505): one `(param_name, weight_name, shard_id,
expert_id)` row per expert and projection, built only when no linear method
is configured or the quant config supports fused MoE; otherwise the empty
list. -/
def expertParamsMapping (linearMethodNone supportsFusedMoe : Bool)
    (numExperts : ℕ) : List (List Char × List Char × Option ℕ × ℕ) :=
  if linearMethodNone || supportsFusedMoe then
    ((List.range numExperts).map (fun eid =>
      [("w1".data, "experts.".data ++ Nat.toDigits 10 eid ++ ".gate_proj".data,
        some 0, eid),
       ("w1".data, "experts.".data ++ Nat.toDigits 10 eid ++ ".up_proj".data,
        some 1, eid),
       ("w2".data, "experts.".data ++ Nat.toDigits 10 eid ++ ".down_proj".data,
        none, eid)])).flatten
  else []

/-- One resolved load: which destination parameter the tensor goes to and
with which loader arguments (stacked shard tag, per-expert shard/expert id,
or a plain whole-tensor load). -/
inductive LoadAction
  | stackedLoad (destination : List Char) (shard : ShardId)
  | expertLoad (destination : List Char) (shard : Option ℕ) (expertId : ℕ)
  | plainLoad (destination : List Char)
deriving DecidableEq

/-- A fatal checkpoint-load failure: the (rewritten) name has no destination
parameter and no skip rule applies (Python's `params_dict[name]` KeyError;
the spec's LoadError). -/
inductive LoadError
  | missingDestination
deriving DecidableEq

instance instDecEqExceptLoad : DecidableEq (Except LoadError LoadAction) :=
  fun a b =>
    match a, b with
    | Except.error e1, Except.error e2 => isTrue (by cases e1; cases e2; rfl)
    | Except.ok a1, Except.ok a2 =>
      if h : a1 = a2 then isTrue (by rw [h]) else isFalse (by simp [h])
    | Except.error _, Except.ok _ => isFalse (by simp)
    | Except.ok _, Except.error _ => isFalse (by simp)

/-- The stacked-projections tier (qwen2_moe.py lines 517-531).  Mirrors the
Python `for ... else` loop faithfully: a `continue` fired *after* the name
was rewritten proceeds to the next mapping with the mutated name, and when
no mapping concludes the (possibly mutated) name falls through (`none`). -/
def tryStacked (params : List (List Char)) :
    List (List Char × List Char × ShardId) → List Char →
      List Char × Option (Except LoadError LoadAction)
  | [], name => (name, none)
  | (pname, wname, sid) :: rest, name =>
    if !occursIn wname name then tryStacked params rest name
    else
      let name' := replaceAll name wname pname
      if endsWith name' ".bias".data && !params.contains name' then
        tryStacked params rest name'
      else if (occursIn "mlp.experts.".data name' ||
            occursIn "mlp.shared_expert.".data name') && !params.contains name' then
        tryStacked params rest name'
      else if params.contains name' then
        (name', some (Except.ok (LoadAction.stackedLoad name' sid)))
      else
        (name', some (Except.error LoadError.missingDestination))

/-- The expert-projections tier (qwen2_moe.py lines 533-551): only the bias
skip rule applies here before the destination lookup. -/
def tryExpert (params : List (List Char)) :
    List (List Char × List Char × Option ℕ × ℕ) → List Char →
      List Char × Option (Except LoadError LoadAction)
  | [], name => (name, none)
  | (pname, wname, sid, eid) :: rest, name =>
    if !occursIn wname name then tryExpert params rest name
    else
      let name' := replaceAll name wname pname
      if endsWith name' ".bias".data && !params.contains name' then
        tryExpert params rest name'
      else if params.contains name' then
        (name', some (Except.ok (LoadAction.expertLoad name' sid eid)))
      else
        (name', some (Except.error LoadError.missingDestination))

/-- The default tier (qwen2_moe.py lines 552-564): skip a bias name with no
destination, skip an expert/shared-expert name not owned by this rank,
otherwise load verbatim (missing destination is fatal). -/
def defaultStage (params : List (List Char)) (name : List Char) :
    Option (Except LoadError LoadAction) :=
  if endsWith name ".bias".data && !params.contains name then none
  else if (occursIn "mlp.experts.".data name ||
        occursIn "mlp.shared_expert.".data name) && !params.contains name then none
  else if params.contains name then some (Except.ok (LoadAction.plainLoad name))
  else some (Except.error LoadError.missingDestination)

/-- Lift a stage outcome into the entry result (`none` = silent skip). -/
def liftStage (r : Option (Except LoadError LoadAction)) :
    Except LoadError (Option LoadAction) :=
  match r with
  | none => Except.ok none
  | some (Except.ok a) => Except.ok (some a)
  | some (Except.error e) => Except.error e

/-- Processing of one checkpoint stream entry by
`Qwen2MoeForCausalLM.load_weights` (qwen2_moe.py lines 515-564): the
rotary-frequency skip, then the three prioritized tiers, first match wins. -/
def processEntry (expMap : List (List Char × List Char × Option ℕ × ℕ))
    (params : List (List Char)) (name : List Char) :
    Except LoadError (Option LoadAction) :=
  if occursIn "rotary_emb.inv_freq".data name then Except.ok none
  else
    match tryStacked params stackedParamsMapping name with
    | (_, some (Except.ok a)) => Except.ok (some a)
    | (_, some (Except.error e)) => Except.error e
    | (n1, none) =>
      match tryExpert params expMap n1 with
      | (_, some (Except.ok a)) => Except.ok (some a)
      | (_, some (Except.error e)) => Except.error e
      | (n2, none) => liftStage (defaultStage params n2)

/-- Whole-stream processing: the ordered list of loader invocations, or the
first fatal error; skipped entries contribute nothing. -/
def loadWeights (expMap : List (List Char × List Char × Option ℕ × ℕ))
    (params : List (List Char)) : List (List Char) → Except LoadError (List LoadAction)
  | [] => Except.ok []
  | name :: rest =>
    match processEntry expMap params name with
    | Except.error e => Except.error e
    | Except.ok none => loadWeights expMap params rest
    | Except.ok (some a) =>
      match loadWeights expMap params rest with
      | Except.error e => Except.error e
      | Except.ok acts => Except.ok (a :: acts)

/-- C4 counterexample: with a configured linear method whose backend does
NOT support fused MoE (both flags false) and 60 experts, the
expert-projections table is empty — not active as the claim states. -/
theorem expert_mapping_empty_when_not_fused :
    expertParamsMapping false false 60 = [] := rfl

/-- C4 (amended): the expert-projections table is non-empty exactly when no
linear method is configured or the backend supports fused MoE (given at
least one expert); and whenever neither the stacked nor the expert tier
concludes for a (non-rotary) name, the entry falls through to the default
verbatim whole-tensor tier. -/
theorem expert_mapping_active_iff (lmNone fused : Bool) (nE : ℕ) (hE : 0 < nE) :
    (expertParamsMapping lmNone fused nE ≠ [] ↔ (lmNone || fused) = true) ∧
      (∀ (params : List (List Char)) (name n1 n2 : List Char),
        occursIn "rotary_emb.inv_freq".data name = false →
        tryStacked params stackedParamsMapping name = (n1, none) →
        tryExpert params (expertParamsMapping lmNone fused nE) n1 = (n2, none) →
        processEntry (expertParamsMapping lmNone fused nE) params name =
          liftStage (defaultStage params n2)) := by
  constructor
  · by_cases h : (lmNone || fused) = true
    · simp only [expertParamsMapping, h, if_true, ne_eq, iff_true]
      obtain ⟨m, rfl⟩ : ∃ m, nE = m + 1 := ⟨nE - 1, by omega⟩
      simp [List.range_succ_eq_map]
    · have h' : (lmNone || fused) = false := by
        revert h; cases (lmNone || fused) <;> simp
      simp [expertParamsMapping, h']
  · intro params name n1 n2 hrot h1 h2
    simp only [processEntry, hrot, Bool.false_eq_true, if_false, h1, h2]

/-- Witness for C4's amended theorem: with no linear method configured the
table for 60 experts is non-empty. -/
theorem expert_mapping_active_iff_witness :
    expertParamsMapping true false 60 ≠ [] :=
  ((expert_mapping_active_iff true false 60 (by decide)).1).mpr (by decide)

lemma loadWeights_skip_entry (expMap : List (List Char × List Char × Option ℕ × ℕ))
    (params : List (List Char)) (name : List Char) (post : List (List Char))
    (h : processEntry expMap params name = Except.ok none) :
    ∀ pre, loadWeights expMap params (pre ++ name :: post) =
      loadWeights expMap params (pre ++ post) := by
  intro pre
  induction pre with
  | nil => simp only [List.nil_append, loadWeights, h]
  | cons p pre ih =>
    simp only [List.cons_append, loadWeights, List.append_eq]
    cases hp : processEntry expMap params p with
    | error e => rfl
    | ok o =>
      cases o with
      | none => exact ih
      | some a =>
        show (match loadWeights expMap params (pre ++ name :: post) with
          | Except.error e => Except.error e
          | Except.ok acts => Except.ok (a :: acts)) =
          match loadWeights expMap params (pre ++ post) with
          | Except.error e => Except.error e
          | Except.ok acts => Except.ok (a :: acts)
        rw [ih]

/-- C8: an entry whose (tier-rewritten) destination name ends in `.bias`
with no matching parameter, or references an expert / shared-expert
parameter not owned by this rank, is silently skipped: the entry produces
no loader invocation and no error, and removing it from the stream leaves
the load result unchanged. -/
theorem load_skip_rules (expMap : List (List Char × List Char × Option ℕ × ℕ))
    (params : List (List Char)) (pre post : List (List Char))
    (name n1 n2 : List Char)
    (hrot : occursIn "rotary_emb.inv_freq".data name = false)
    (h1 : tryStacked params stackedParamsMapping name = (n1, none))
    (h2 : tryExpert params expMap n1 = (n2, none))
    (hskip : (endsWith n2 ".bias".data = true ∧ params.contains n2 = false) ∨
      ((occursIn "mlp.experts.".data n2 = true ∨
          occursIn "mlp.shared_expert.".data n2 = true) ∧
        params.contains n2 = false)) :
    processEntry expMap params name = Except.ok none ∧
      loadWeights expMap params (pre ++ name :: post) =
        loadWeights expMap params (pre ++ post) := by
  have hdef : defaultStage params n2 = none := by
    rw [defaultStage]
    by_cases hbias : (endsWith n2 ".bias".data && !params.contains n2) = true
    · rw [if_pos hbias]
    · rcases hskip with ⟨hb, hc⟩ | ⟨ho, hc⟩
      · exact absurd (by rw [hb, hc]; rfl) hbias
      · have hcond : ((occursIn "mlp.experts.".data n2 ||
            occursIn "mlp.shared_expert.".data n2) && !params.contains n2) = true := by
          rcases ho with ho | ho
          · rw [ho, hc]; rfl
          · rw [ho, hc, Bool.or_true]; rfl
        rw [if_neg hbias, if_pos hcond]
  have hproc : processEntry expMap params name = Except.ok none := by
    simp only [processEntry, hrot, Bool.false_eq_true, if_false, h1, h2, hdef, liftStage]
  exact ⟨hproc, loadWeights_skip_entry expMap params name post hproc pre⟩

/-- Witness for C8: a gate-projection bias entry with an empty parameter
set — the stacked tier rewrites it to `...mlp.gate_up_proj.bias`, every tier
passes it on, and the default tier's bias rule skips it silently. -/
theorem load_skip_rules_witness :
    processEntry [] [] "model.layers.0.mlp.gate_proj.bias".data = Except.ok none ∧
      loadWeights [] [] ([] ++ "model.layers.0.mlp.gate_proj.bias".data :: []) =
        loadWeights [] [] ([] ++ []) :=
  load_skip_rules [] [] [] [] "model.layers.0.mlp.gate_proj.bias".data
    "model.layers.0.mlp.gate_up_proj.bias".data
    "model.layers.0.mlp.gate_up_proj.bias".data
    (by decide) (by decide) (by decide) (Or.inl ⟨by decide, by decide⟩)

end VllmGptq
